import Mathlib

/-!
Verification of the risk-managed screening/backtesting core of the
`buffett_screener` repository, shallowly embedded in Lean 4.

Python floats are modelled as rationals (`ℚ`); Python's `int(x)`
conversion (truncation toward zero) is `pyInt`; Python dicts of open
positions are association lists `List (String × Position)`; pandas/numpy
columns with NaN are `List (Option ℚ)`, where a comparison against NaN
yields `false` as in pandas.
-/

/-- Python `int(x)`: truncation toward zero. -/
def pyInt (q : ℚ) : ℤ :=
  if 0 ≤ q then ⌊q⌋ else ⌈q⌉

/-- One entry of the position book, mirroring the dict returned by
`RiskManager.calculate_position_size` in `src/risk/position.py`. -/
structure Position where
  ticker : String
  shares : ℚ
  entry_price : ℚ
  dollar_amount : ℚ
  stop_loss : ℚ
  risk_amount : ℚ
  risk_pct : ℚ
  deriving DecidableEq, Repr

/-- The `RiskManager` state: account parameters and the mutable book of
open positions (`self.positions`, a dict modelled as an association list). -/
structure RiskManager where
  account_size : ℚ
  max_risk_pct : ℚ
  max_position_pct : ℚ
  positions : List (String × Position)
  deriving DecidableEq, Repr

namespace RiskManager

/-- Embedding of `RiskManager.calculate_position_size` (src/risk/position.py
lines 66-99): ATR-based stop, risk-budgeted share count truncated to an
integer, position value capped at `account_size * max_position_pct`. -/
def calculate_position_size (rm : RiskManager) (ticker : String)
    (price atr : ℚ) (risk_multiple : ℚ) : Position :=
  let stop_loss := price - atr * risk_multiple
  let risk_per_share := price - stop_loss
  let max_dollar_risk := rm.account_size * rm.max_risk_pct
  let shares : ℤ := if 0 < risk_per_share then pyInt (max_dollar_risk / risk_per_share) else 0
  let position_value := (shares : ℚ) * price
  let max_position_value := rm.account_size * rm.max_position_pct
  let shares : ℤ :=
    if max_position_value < position_value then pyInt (max_position_value / price) else shares
  let position_value := (shares : ℚ) * price
  let risk_amount := (shares : ℚ) * risk_per_share
  { ticker := ticker
    shares := (shares : ℚ)
    entry_price := price
    dollar_amount := position_value
    stop_loss := stop_loss
    risk_amount := risk_amount
    risk_pct := risk_amount / rm.account_size }

/-- Portfolio risk aggregate of `RiskManager.get_portfolio_risk`
(src/risk/position.py lines 153-174). -/
structure PortfolioRisk where
  total_value : ℚ
  total_risk_amount : ℚ
  total_risk_pct : ℚ
  position_count : ℕ
  deriving DecidableEq, Repr

/-- Embedding of `RiskManager.get_portfolio_risk`: sums `dollar_amount` and
`risk_amount` over the book; `total_risk_pct` is guarded when
`account_size ≤ 0`. -/
def get_portfolio_risk (rm : RiskManager) : PortfolioRisk :=
  let total_value := (rm.positions.map (fun tp => tp.2.dollar_amount)).sum
  let total_risk := (rm.positions.map (fun tp => tp.2.risk_amount)).sum
  { total_value := total_value
    total_risk_amount := total_risk
    total_risk_pct := if 0 < rm.account_size then total_risk / rm.account_size else 0
    position_count := rm.positions.length }

/-- The per-position rescaling step of `RiskManager.adjust_position_sizes`:
shares are truncated after scaling, dollar/risk fields recomputed. -/
def scalePosition (account_size : ℚ) (f : ℚ) (p : Position) : Option Position :=
  let adjusted_shares : ℤ := pyInt (p.shares * f)
  if 0 < adjusted_shares then
    some { p with
      shares := (adjusted_shares : ℚ)
      dollar_amount := (adjusted_shares : ℚ) * p.entry_price
      risk_amount := (adjusted_shares : ℚ) * (p.entry_price - p.stop_loss)
      risk_pct := (adjusted_shares : ℚ) * (p.entry_price - p.stop_loss) / account_size }
  else none

/-- Embedding of `RiskManager.adjust_position_sizes` (src/risk/position.py lines 176-217):
no-op when `total_risk_pct ≤ cap`; otherwise every position is scaled by
`cap / total_risk_pct`, positions whose truncated share count is 0 are
dropped, and the book is replaced. -/
def adjust_position_sizes (rm : RiskManager) (max_portfolio_risk_pct : ℚ) : RiskManager :=
  let trp := rm.get_portfolio_risk.total_risk_pct
  if trp ≤ max_portfolio_risk_pct then rm
  else
    let scaling_factor := max_portfolio_risk_pct / trp
    { rm with positions :=
        rm.positions.filterMap (fun tp =>
          (scalePosition rm.account_size scaling_factor tp.2).map (fun p => (tp.1, p))) }

/-- Replace the stored stop of `ticker` in the book
(`self.positions[ticker]['stop_loss'] = new_stop`). -/
def setStop (book : List (String × Position)) (ticker : String) (new_stop : ℚ) :
    List (String × Position) :=
  book.map (fun tp => if tp.1 = ticker then (tp.1, { tp.2 with stop_loss := new_stop }) else tp)

/-- Embedding of `RiskManager.calculate_trailing_stop` (src/risk/position.py lines 219-262):
returns the sentinel `0.0` for an unknown ticker; raises the stored stop only
when the price has advanced past entry and the candidate exceeds the current
stop. Returns the value the Python function returns, paired with the
post-call state. -/
def calculate_trailing_stop (rm : RiskManager) (ticker : String)
    (current_price : ℚ) (atr_multiple : ℚ) : ℚ × RiskManager :=
  match rm.positions.lookup ticker with
  | none => (0, rm)
  | some position =>
    let entry_price := position.entry_price
    let current_stop := position.stop_loss
    if entry_price < current_price then
      let original_stop_distance := entry_price - position.stop_loss
      let new_stop := current_price -
        max original_stop_distance (atr_multiple * original_stop_distance / 2)
      if current_stop < new_stop then
        (new_stop, { rm with positions := setStop rm.positions ticker new_stop })
      else
        (current_stop, rm)
    else
      (current_stop, rm)

end RiskManager

/-- The module-level `position_size` function (src/risk/position.py lines
264-295): simplified dollar allocation with an explicit zero-ATR guard. -/
def position_size (price atr account_size risk_pct : ℚ) : ℚ :=
  let risk_amount := account_size * risk_pct
  let risk_per_share := 2 * atr
  if risk_per_share = 0 then 0
  else risk_amount / risk_per_share * price

/-! Signal builder (`build_factor_df` in src/backtest/vectorbt_runner.py).
Columns with NaN entries are `List (Option ℚ)`; a pandas comparison whose
right operand is NaN is `false`. -/

/-- Pandas `a < b` where `b` may be NaN (`none`): NaN compares false. -/
def nanLt (a : ℚ) (b : Option ℚ) : Bool :=
  match b with
  | some v => decide (a < v)
  | none => false

/-- Pandas `a > b` where `b` may be NaN (`none`): NaN compares false. -/
def nanGt (a : ℚ) (b : Option ℚ) : Bool :=
  match b with
  | some v => decide (v < a)
  | none => false

/-- Rolling simple moving average with window `w` (`vbt.MA.run(close, window=w).ma`):
NaN until `w` bars exist, then the mean of the last `w` values. -/
def rollingMean (w : ℕ) (xs : List ℚ) : List (Option ℚ) :=
  (List.range xs.length).map (fun t =>
    if w ≤ t + 1 then some ((((xs.take (t + 1)).drop (t + 1 - w)).sum) / (w : ℚ)) else none)

/-- True range series: `max(high-low, |high-prev_close|, |low-prev_close|)`,
with the first bar reduced to `high-low` (the NaN terms drop out of the max). -/
def trueRange (high low close : List ℚ) : List ℚ :=
  (List.range high.length).map (fun t =>
    let hl := high.getD t 0 - low.getD t 0
    match t with
    | 0 => hl
    | s + 1 =>
      let pc := close.getD s 0
      max hl (max |high.getD (s + 1) 0 - pc| |low.getD (s + 1) 0 - pc|))

/-- Forward fill with an explicit carry (pandas `Series.ffill`). -/
def ffillFrom (carry : Option ℚ) : List (Option ℚ) → List (Option ℚ)
  | [] => []
  | x :: xs =>
    let cur := match x with
      | some v => some v
      | none => carry
    cur :: ffillFrom cur xs

/-- Pandas `Series.ffill`: each `none` replaced by the last preceding `some`. -/
def ffill (xs : List (Option ℚ)) : List (Option ℚ) := ffillFrom none xs

/-- Input frame for the signal builder: per-bar OHLC closes and the score
column, in time order. -/
structure OhlcFrame where
  high : List ℚ
  low : List ℚ
  close : List ℚ
  score : List ℚ
  deriving DecidableEq, Repr

/-- Output columns added by `build_factor_df`. -/
structure FactorDF where
  sma_200 : List (Option ℚ)
  atr : List (Option ℚ)
  entry : List Bool
  exit_sma : List Bool
  entry_price : List (Option ℚ)
  atr_stop : List (Option ℚ)
  exit_atr : List Bool
  exit : List Bool
  deriving DecidableEq, Repr

/-- Embedding of `build_factor_df` (src/backtest/vectorbt_runner.py lines 75-92):
entry = score ≥ thr and close above the 200-bar SMA; exits on close below the
SMA or below the forward-filled entry price minus twice the 14-bar ATR. -/
def build_factor_df (f : OhlcFrame) (thr : ℚ) : FactorDF :=
  let sma_200 := rollingMean 200 f.close
  let atr := rollingMean 14 (trueRange f.high f.low f.close)
  let entry := List.zipWith (fun s p => decide (thr ≤ s) && nanGt p.1 p.2)
    f.score (f.close.zip sma_200)
  let exit_sma := List.zipWith (fun c m => nanLt c m) f.close sma_200
  let entry_price := ffill (List.zipWith (fun e c => if e then some c else none) entry f.close)
  let atr_stop := List.zipWith (Option.map₂ (fun e a => e - 2 * a)) entry_price atr
  let exit_atr := List.zipWith (fun c st => nanLt c st) f.close atr_stop
  { sma_200 := sma_200
    atr := atr
    entry := entry
    exit_sma := exit_sma
    entry_price := entry_price
    atr_stop := atr_stop
    exit_atr := exit_atr
    exit := List.zipWith (fun a b => a || b) exit_sma exit_atr }

/-! Broker order validation (`submit_bracket` in src/execution/broker_alpaca.py). -/

/-- Result of a `submit_bracket` call: either a validation error raised before
any network interaction, or the outcome of the network phase (abstracted as a
value of type `α`, showing the network is only reached after validation). -/
inductive SubmitOutcome (α : Type) where
  | validationError (msg : String)
  | submitted (order : α)
  deriving DecidableEq, Repr

/-- Embedding of `submit_bracket` (src/execution/broker_alpaca.py lines 94-133):
the four validation checks run in order before the Alpaca client is touched;
only when all pass is the network phase (parameter `network`) reached. -/
def submit_bracket {α : Type} (qty : ℤ) (entry_price take_profit_price stop_loss_price : ℚ)
    (network : α) : SubmitOutcome α :=
  if qty ≤ 0 then
    .validationError "Quantity must be positive"
  else if entry_price ≤ 0 ∨ take_profit_price ≤ 0 ∨ stop_loss_price ≤ 0 then
    .validationError "Prices must be positive"
  else if take_profit_price ≤ entry_price then
    .validationError "Take profit price must be greater than entry price"
  else if stop_loss_price ≥ entry_price then
    .validationError "Stop loss price must be less than entry price"
  else
    .submitted network

/-! Score cache (`get_f_score` in src/scoring/buffett.py). The SQLite store
and network are abstracted as explicit outcome parameters. -/

/-- One row of the score table: symbol → (score, close, atr). -/
structure ScoreRow where
  symbol : String
  score : ℚ
  close : ℚ
  atr : ℚ
  deriving DecidableEq, Repr

/-- Embedding of `_load_from_cache` (src/scoring/buffett.py lines 188-195): a
failed read is caught and an empty table (`pd.DataFrame(columns=[...])`)
returned in its place. -/
def load_from_cache (readResult : Except String (List ScoreRow)) : List ScoreRow :=
  match readResult with
  | .ok table => table
  | .error _ => []

/-- Embedding of `_save_to_cache` (src/scoring/buffett.py lines 197-204): a
failed write is caught; the error is only logged (returned here as the
optional log message), never propagated. -/
def save_to_cache (writeResult : Except String Unit) : Option String :=
  match writeResult with
  | .ok _ => none
  | .error e => some e

/-- Embedding of `get_f_score` (src/scoring/buffett.py lines 35-66). The
effects are explicit parameters: `cacheFresh` is whether a store entry younger
than 24h exists, `readResult` the outcome of reading it, `computed` the table
`_calculate_f_scores` would produce, and `writeResult` the outcome of writing
it back. The returned `Except` is the Python call's outcome. -/
def get_f_score (cacheFresh : Bool) (readResult : Except String (List ScoreRow))
    (computed : List ScoreRow) (writeResult : Except String Unit) :
    Except String (List ScoreRow) :=
  if cacheFresh then
    .ok (load_from_cache readResult)
  else
    let _log := save_to_cache writeResult
    .ok computed

/-! Auxiliary spec-side characterizations and concrete example data used in
the theorems and their witnesses below. -/

/-- Last non-`none` value of `xs`, falling back to `carry` when all entries
are `none` (the value a forward fill started at `carry` holds after `xs`). -/
def lastCarried (carry : Option ℚ) (xs : List (Option ℚ)) : Option ℚ :=
  match (xs.filterMap id).getLast? with
  | some v => some v
  | none => carry

/-- Close price at the most recent entry bar strictly before bar `t`
(`none` when no entry has occurred before `t`). -/
def lastEntryPriceBefore (entry : List Bool) (close : List ℚ) (t : ℕ) : Option ℚ :=
  ((List.range t).filterMap (fun s =>
    if entry.getD s false then some (close.getD s 0) else none)).getLast?

/-- A sample open position used by concrete witnesses. -/
def examplePosition : Position :=
  { ticker := "AAPL", shares := 10, entry_price := 100, dollar_amount := 1000,
    stop_loss := 95, risk_amount := 50, risk_pct := 1/200 }

/-- A sample risk manager holding `examplePosition` under ticker "AAPL". -/
def exampleRM : RiskManager :=
  { account_size := 10000, max_risk_pct := 1/100, max_position_pct := 1/20,
    positions := [("AAPL", examplePosition)] }

/-- A position book whose stored `risk_amount` (1/2) disagrees with
`shares * (entry_price - stop_loss)` (10): legal under the claim C1
hypotheses, but `adjust_position_sizes` recomputes risk from the spread. -/
def inconsistentRM : RiskManager :=
  { account_size := 100, max_risk_pct := 1/100, max_position_pct := 1/20,
    positions := [("AAPL",
      { ticker := "AAPL", shares := 10, entry_price := 100, dollar_amount := 1000,
        stop_loss := 99, risk_amount := 1/2, risk_pct := 1/200 })] }

/-- A consistent over-risk book: total risk 10% of the account. -/
def overRiskRM : RiskManager :=
  { account_size := 100, max_risk_pct := 1/100, max_position_pct := 1/20,
    positions := [("AAPL",
      { ticker := "AAPL", shares := 10, entry_price := 100, dollar_amount := 1000,
        stop_loss := 99, risk_amount := 10, risk_pct := 1/10 })] }

/-- A one-row score table used to exhibit the cache read-failure behavior. -/
def exampleScoreTable : List ScoreRow :=
  [{ symbol := "AAPL", score := 8, close := 100, atr := 2 }]

/-- A one-bar OHLC frame used by concrete signal-builder witnesses. -/
def exampleFrame : OhlcFrame :=
  { high := [11], low := [9], close := [10], score := [8] }

/-! Helper lemmas. -/

theorem pyInt_nonneg {q : ℚ} (h : 0 ≤ q) : 0 ≤ pyInt q := by
  simp only [pyInt, if_pos h]
  exact Int.le_floor.mpr (by exact_mod_cast h)

theorem pyInt_le {q : ℚ} (h : 0 ≤ q) : (pyInt q : ℚ) ≤ q := by
  simp only [pyInt, if_pos h]
  exact Int.floor_le q

/-! Claim C9: the simplified dollar-allocation sizing function. -/

/-- C9: `position_size` returns `(account_size × risk_pct) / (2 × atr) × price`
whenever `atr ≠ 0`, returns exactly 0 when `atr = 0` (no division error), and
in particular `position_size 100 2 10000 0.01 = 2500`. -/
theorem position_size_spec :
    (∀ price atr account_size risk_pct : ℚ, atr ≠ 0 →
      position_size price atr account_size risk_pct =
        account_size * risk_pct / (2 * atr) * price) ∧
    (∀ price account_size risk_pct : ℚ,
      position_size price 0 account_size risk_pct = 0) ∧
    position_size 100 2 10000 (1 / 100) = 2500 := by
  refine ⟨?_, ?_, ?_⟩
  · intro price atr account_size risk_pct h
    have h2 : (2 : ℚ) * atr ≠ 0 := mul_ne_zero two_ne_zero h
    simp [position_size, h2]
  · intro price account_size risk_pct
    simp [position_size]
  · norm_num [position_size]

/-- Witness for C9 at `atr = 2`. -/
theorem position_size_spec_witness :
    (2 : ℚ) ≠ 0 ∧
      position_size 100 2 10000 (1 / 100) = 10000 * (1 / 100) / (2 * 2) * 100 :=
  ⟨by norm_num, position_size_spec.1 100 2 10000 (1 / 100) (by norm_num)⟩

/-! Claim C10: trailing stop for an unknown ticker. -/

/-- C10: calling `calculate_trailing_stop` for a ticker absent from the book
returns the sentinel `0.0` and leaves the book (the whole state) unchanged. -/
theorem calculate_trailing_stop_unknown_ticker (rm : RiskManager) (ticker : String)
    (current_price atr_multiple : ℚ) (h : rm.positions.lookup ticker = none) :
    rm.calculate_trailing_stop ticker current_price atr_multiple = (0, rm) := by
  simp [RiskManager.calculate_trailing_stop, h]

/-- Witness for C10: "MSFT" is not in the example book. -/
theorem calculate_trailing_stop_unknown_ticker_witness :
    exampleRM.positions.lookup "MSFT" = none ∧
      exampleRM.calculate_trailing_stop "MSFT" 120 2 = (0, exampleRM) :=
  ⟨by decide, calculate_trailing_stop_unknown_ticker exampleRM "MSFT" 120 2 (by decide)⟩

/-! Claim C2: strictness of `stop_loss < entry_price` in sized positions. -/

/-- C2 counterexample: at `atr = 0` (allowed by the claim, which quantifies
over `atr ≥ 0`) the computed stop equals the entry price, so the strict
inequality `stop_loss < entry_price` fails. -/
theorem calculate_position_size_stop_not_lt_entry_cex :
    (0 : ℚ) ≤ 0 ∧
      ¬ (exampleRM.calculate_position_size "X" 100 0 2).stop_loss <
          (exampleRM.calculate_position_size "X" 100 0 2).entry_price := by
  constructor
  · exact le_refl 0
  · have h1 : (exampleRM.calculate_position_size "X" 100 0 2).stop_loss = 100 := by
      norm_num [RiskManager.calculate_position_size]
    have h2 : (exampleRM.calculate_position_size "X" 100 0 2).entry_price = 100 := by
      norm_num [RiskManager.calculate_position_size]
    rw [h1, h2]
    exact lt_irrefl 100

/-- C2 amended: whenever `atr > 0` and `risk_multiple > 0` (in particular for
the default `risk_multiple = 2`), the returned Position satisfies
`stop_loss < entry_price` strictly. -/
theorem calculate_position_size_stop_lt_entry (rm : RiskManager) (ticker : String)
    (price atr risk_multiple : ℚ) (hatr : 0 < atr) (hmul : 0 < risk_multiple) :
    (rm.calculate_position_size ticker price atr risk_multiple).stop_loss <
      (rm.calculate_position_size ticker price atr risk_multiple).entry_price := by
  simp only [RiskManager.calculate_position_size]
  have : 0 < atr * risk_multiple := mul_pos hatr hmul
  linarith

/-- Witness for the amended C2 at `price = 100`, `atr = 3`, `risk_multiple = 2`. -/
theorem calculate_position_size_stop_lt_entry_witness :
    (0 : ℚ) < 3 ∧ (0 : ℚ) < 2 ∧
      (exampleRM.calculate_position_size "AAPL" 100 3 2).stop_loss <
        (exampleRM.calculate_position_size "AAPL" 100 3 2).entry_price :=
  ⟨by norm_num, by norm_num,
    calculate_position_size_stop_lt_entry exampleRM "AAPL" 100 3 2 (by norm_num) (by norm_num)⟩

/-! Claim C8: bracket-order validation happens before any network call. -/

/-- Discriminator for the validation-error case of a `submit_bracket` call. -/
def SubmitOutcome.isValidationError {α : Type} : SubmitOutcome α → Bool
  | .validationError _ => true
  | .submitted _ => false

/-- C8: `submit_bracket` yields a validation error — before the network phase,
uniformly in whatever the network would return — precisely when one of the
order preconditions fails (`qty ≤ 0`, a non-positive price,
`take_profit ≤ entry`, or `stop_loss ≥ entry`); when all preconditions hold it
proceeds to the network phase with no validation error. -/
theorem submit_bracket_validation (qty : ℤ) (entry_price take_profit_price stop_loss_price : ℚ) :
    (∀ (α : Type) (network : α),
      (submit_bracket qty entry_price take_profit_price stop_loss_price
          network).isValidationError = true ↔
        (qty ≤ 0 ∨ entry_price ≤ 0 ∨ take_profit_price ≤ 0 ∨ stop_loss_price ≤ 0 ∨
          take_profit_price ≤ entry_price ∨ stop_loss_price ≥ entry_price)) ∧
    ((0 < qty ∧ 0 < entry_price ∧ 0 < take_profit_price ∧ 0 < stop_loss_price ∧
        entry_price < take_profit_price ∧ stop_loss_price < entry_price) →
      ∀ (α : Type) (network : α),
        submit_bracket qty entry_price take_profit_price stop_loss_price network =
          .submitted network) := by
  constructor
  · intro α network
    unfold submit_bracket
    split_ifs with h1 h2 h3 h4 <;>
      simp [SubmitOutcome.isValidationError] <;>
      push_neg at * <;> tauto
  · rintro ⟨hq, he, htp, hsl, hte, hse⟩ α network
    unfold submit_bracket
    split_ifs with h1 h2 h3 h4
    · omega
    · rcases h2 with h | h | h <;> linarith
    · linarith
    · exact absurd h4 (by push_neg; linarith)
    · rfl

/-- Witness for C8 with valid parameters `qty = 1`, prices `100/110/95`. -/
theorem submit_bracket_validation_witness :
    ((0 : ℤ) < 1 ∧ (0 : ℚ) < 100 ∧ (0 : ℚ) < 110 ∧ (0 : ℚ) < 95 ∧
        (100 : ℚ) < 110 ∧ (95 : ℚ) < 100) ∧
      submit_bracket 1 100 110 95 () = .submitted () :=
  ⟨by norm_num,
    (submit_bracket_validation 1 100 110 95).2 (by norm_num) Unit ()⟩

/-! Claim C4: bounds on sized positions. -/

/-- C4: for `price > 0`, `atr > 0`, `0 < max_risk_pct ≤ 1`,
`0 ≤ max_position_pct` and `account_size > 0` (for any `risk_multiple`), the
returned Position has `shares ≥ 0`,
`dollar_amount ≤ account_size × max_position_pct`, and
`risk_amount ≤ account_size × max_risk_pct`. -/
theorem calculate_position_size_bounds (rm : RiskManager) (ticker : String)
    (price atr risk_multiple : ℚ)
    (hprice : 0 < price) (hatr : 0 < atr)
    (hmrp : 0 < rm.max_risk_pct) (hmrp1 : rm.max_risk_pct ≤ 1)
    (hmpp : 0 ≤ rm.max_position_pct) (hacc : 0 < rm.account_size) :
    0 ≤ (rm.calculate_position_size ticker price atr risk_multiple).shares ∧
      (rm.calculate_position_size ticker price atr risk_multiple).dollar_amount ≤
        rm.account_size * rm.max_position_pct ∧
      (rm.calculate_position_size ticker price atr risk_multiple).risk_amount ≤
        rm.account_size * rm.max_risk_pct := by
  have hmdr : 0 < rm.account_size * rm.max_risk_pct := mul_pos hacc hmrp
  have hmpv : 0 ≤ rm.account_size * rm.max_position_pct := mul_nonneg hacc.le hmpp
  simp only [RiskManager.calculate_position_size]
  split_ifs with h1 h2 h3
  · -- rps > 0, capped
    have hdiv1 : 0 ≤ rm.account_size * rm.max_position_pct / price :=
      div_nonneg hmpv hprice.le
    have hs1 : 0 ≤ pyInt (rm.account_size * rm.max_position_pct / price) :=
      pyInt_nonneg hdiv1
    have hs1' : (pyInt (rm.account_size * rm.max_position_pct / price) : ℚ) ≤
        rm.account_size * rm.max_position_pct / price := pyInt_le hdiv1
    have hdiv0 : 0 ≤ rm.account_size * rm.max_risk_pct /
        (price - (price - atr * risk_multiple)) := div_nonneg hmdr.le h1.le
    have hs0' : (pyInt (rm.account_size * rm.max_risk_pct /
        (price - (price - atr * risk_multiple))) : ℚ) ≤
        rm.account_size * rm.max_risk_pct / (price - (price - atr * risk_multiple)) :=
      pyInt_le hdiv0
    refine ⟨by exact_mod_cast hs1, ?_, ?_⟩
    · calc (pyInt (rm.account_size * rm.max_position_pct / price) : ℚ) * price
          ≤ rm.account_size * rm.max_position_pct / price * price := by
            exact mul_le_mul_of_nonneg_right hs1' hprice.le
        _ = rm.account_size * rm.max_position_pct := by
            field_simp
    · -- capped shares strictly below the risk-based shares
      have hlt : (pyInt (rm.account_size * rm.max_position_pct / price) : ℚ) <
          (pyInt (rm.account_size * rm.max_risk_pct /
            (price - (price - atr * risk_multiple))) : ℚ) := by
        have := (div_lt_iff hprice).mpr h2
        linarith [hs1']
      have hrisk0 : (pyInt (rm.account_size * rm.max_risk_pct /
          (price - (price - atr * risk_multiple))) : ℚ) *
            (price - (price - atr * risk_multiple)) ≤
          rm.account_size * rm.max_risk_pct := by
        have := mul_le_mul_of_nonneg_right hs0' h1.le
        calc (pyInt (rm.account_size * rm.max_risk_pct /
              (price - (price - atr * risk_multiple))) : ℚ) *
                (price - (price - atr * risk_multiple))
            ≤ rm.account_size * rm.max_risk_pct /
                (price - (price - atr * risk_multiple)) *
                (price - (price - atr * risk_multiple)) := this
          _ = rm.account_size * rm.max_risk_pct :=
              div_mul_cancel₀ _ (ne_of_gt h1)
      nlinarith [h1]
  · -- rps > 0, uncapped
    have hdiv0 : 0 ≤ rm.account_size * rm.max_risk_pct /
        (price - (price - atr * risk_multiple)) := div_nonneg hmdr.le h1.le
    have hs0 : 0 ≤ pyInt (rm.account_size * rm.max_risk_pct /
        (price - (price - atr * risk_multiple))) := pyInt_nonneg hdiv0
    have hs0' : (pyInt (rm.account_size * rm.max_risk_pct /
        (price - (price - atr * risk_multiple))) : ℚ) ≤
        rm.account_size * rm.max_risk_pct / (price - (price - atr * risk_multiple)) :=
      pyInt_le hdiv0
    refine ⟨by exact_mod_cast hs0, not_lt.mp h2, ?_⟩
    calc (pyInt (rm.account_size * rm.max_risk_pct /
          (price - (price - atr * risk_multiple))) : ℚ) *
            (price - (price - atr * risk_multiple))
        ≤ rm.account_size * rm.max_risk_pct /
            (price - (price - atr * risk_multiple)) *
            (price - (price - atr * risk_multiple)) :=
          mul_le_mul_of_nonneg_right hs0' h1.le
      _ = rm.account_size * rm.max_risk_pct := div_mul_cancel₀ _ (ne_of_gt h1)
  · -- rps ≤ 0, the cap branch is unreachable
    exfalso
    push_cast at h3
    nlinarith [hmpv]
  · -- rps ≤ 0, shares = 0
    refine ⟨le_refl _, ?_, ?_⟩ <;> push_cast <;> simpa using by linarith [hmpv, hmdr.le]

/-- Witness for C4 at `price = 100`, `atr = 3` on the example risk manager. -/
theorem calculate_position_size_bounds_witness :
    ((0 : ℚ) < 100 ∧ (0 : ℚ) < 3 ∧ 0 < exampleRM.max_risk_pct ∧
        exampleRM.max_risk_pct ≤ 1 ∧ 0 ≤ exampleRM.max_position_pct ∧
        0 < exampleRM.account_size) ∧
      (0 ≤ (exampleRM.calculate_position_size "AAPL" 100 3 2).shares ∧
        (exampleRM.calculate_position_size "AAPL" 100 3 2).dollar_amount ≤
          exampleRM.account_size * exampleRM.max_position_pct ∧
        (exampleRM.calculate_position_size "AAPL" 100 3 2).risk_amount ≤
          exampleRM.account_size * exampleRM.max_risk_pct) :=
  ⟨by norm_num [exampleRM],
    calculate_position_size_bounds exampleRM "AAPL" 100 3 2 (by norm_num) (by norm_num)
      (by norm_num [exampleRM]) (by norm_num [exampleRM]) (by norm_num [exampleRM])
      (by norm_num [exampleRM])⟩

/-! Claim C5: trailing-stop update rule and monotonicity. -/

/-- Unfolding lemma for `setStop` on a cons cell. -/
theorem setStop_cons (k : String) (v : Position) (tl : List (String × Position))
    (ticker : String) (s : ℚ) :
    RiskManager.setStop ((k, v) :: tl) ticker s =
      (if k = ticker then (k, { v with stop_loss := s }) else (k, v)) ::
        RiskManager.setStop tl ticker s := rfl

/-- Looking a ticker up after `setStop` yields the stored position with its
stop replaced. -/
theorem lookup_setStop (book : List (String × Position)) (ticker : String) (s : ℚ) :
    (RiskManager.setStop book ticker s).lookup ticker =
      (book.lookup ticker).map (fun p => { p with stop_loss := s }) := by
  induction book with
  | nil => rfl
  | cons hd tl ih =>
    rcases hd with ⟨k, v⟩
    rw [setStop_cons]
    by_cases hk : k = ticker
    · subst hk
      simp
    · rw [if_neg hk, List.lookup_cons, List.lookup_cons]
      have hk2 : (ticker == k) = false := beq_eq_false_iff_ne.mpr (fun h => hk h.symm)
      rw [hk2]
      exact ih

/-- C5: for a ticker present in the book with position `p`, a call with
`current_price ≤ entry_price` returns the current stop and changes nothing; a
call with `current_price > entry_price` installs the candidate
`current_price − max(d, atr_multiple·d/2)` (where `d = entry_price − stop`)
exactly when it strictly exceeds the current stop, and returns the unchanged
stop otherwise; in all cases the stored stop after the call equals the
returned value and is ≥ the stored stop before the call (monotonic
non-decrease across successive calls). -/
theorem calculate_trailing_stop_spec (rm : RiskManager) (ticker : String)
    (current_price atr_multiple : ℚ) (p : Position)
    (hp : rm.positions.lookup ticker = some p) :
    (current_price ≤ p.entry_price →
      rm.calculate_trailing_stop ticker current_price atr_multiple = (p.stop_loss, rm)) ∧
    (p.entry_price < current_price →
      (p.stop_loss < current_price - max (p.entry_price - p.stop_loss)
          (atr_multiple * (p.entry_price - p.stop_loss) / 2) →
        rm.calculate_trailing_stop ticker current_price atr_multiple =
          (current_price - max (p.entry_price - p.stop_loss)
              (atr_multiple * (p.entry_price - p.stop_loss) / 2),
            { rm with
              positions :=
                RiskManager.setStop rm.positions ticker
                  (current_price - max (p.entry_price - p.stop_loss)
                    (atr_multiple * (p.entry_price - p.stop_loss) / 2)) })) ∧
      (current_price - max (p.entry_price - p.stop_loss)
          (atr_multiple * (p.entry_price - p.stop_loss) / 2) ≤ p.stop_loss →
        rm.calculate_trailing_stop ticker current_price atr_multiple = (p.stop_loss, rm))) ∧
    p.stop_loss ≤ (rm.calculate_trailing_stop ticker current_price atr_multiple).1 ∧
    (rm.calculate_trailing_stop ticker current_price
        atr_multiple).2.positions.lookup ticker =
      some { p with
        stop_loss := (rm.calculate_trailing_stop ticker current_price atr_multiple).1 } := by
  simp only [RiskManager.calculate_trailing_stop, hp]
  by_cases hup : p.entry_price < current_price
  · rw [if_pos hup]
    by_cases hcand : p.stop_loss < current_price - max (p.entry_price - p.stop_loss)
        (atr_multiple * (p.entry_price - p.stop_loss) / 2)
    · rw [if_pos hcand]
      refine ⟨fun h => absurd hup (not_lt.mpr h), fun _ => ⟨fun _ => rfl,
        fun h => absurd hcand (not_lt.mpr h)⟩, le_of_lt hcand, ?_⟩
      simpa [hp] using lookup_setStop rm.positions ticker _
    · rw [if_neg hcand]
      exact ⟨fun h => absurd hup (not_lt.mpr h),
        fun _ => ⟨fun h => absurd h hcand, fun _ => rfl⟩, le_refl _, hp⟩
  · rw [if_neg hup]
    exact ⟨fun _ => rfl, fun h => absurd h hup, le_refl _, hp⟩

/-- Witness for C5: profitable move on the example book raises the stop from
95 to 105. -/
theorem calculate_trailing_stop_spec_witness :
    exampleRM.positions.lookup "AAPL" = some examplePosition ∧
      (examplePosition.stop_loss ≤
        (exampleRM.calculate_trailing_stop "AAPL" 110 2).1 ∧
      (exampleRM.calculate_trailing_stop "AAPL" 110
          2).2.positions.lookup "AAPL" =
        some { examplePosition with
          stop_loss := (exampleRM.calculate_trailing_stop "AAPL" 110 2).1 }) :=
  ⟨rfl,
    (calculate_trailing_stop_spec exampleRM "AAPL" 110 2 examplePosition rfl).2.2⟩

/-! Claim C1: proportional de-risking via `adjust_position_sizes`. -/

/-- Total recomputed risk of the rescaled book is at most the scaling factor
times the total of `shares × (entry_price − stop_loss)` over the original
book. -/
theorem scaled_book_risk_le (acc f : ℚ) (hf : 0 ≤ f)
    (book : List (String × Position))
    (hbook : ∀ tp ∈ book, 0 ≤ tp.2.shares ∧ tp.2.stop_loss ≤ tp.2.entry_price) :
    ((book.filterMap (fun tp =>
        (RiskManager.scalePosition acc f tp.2).map (fun q => (tp.1, q)))).map
          (fun tp => tp.2.risk_amount)).sum ≤
      f * ((book.map
        (fun tp => tp.2.shares * (tp.2.entry_price - tp.2.stop_loss))).sum) := by
  revert hbook
  induction book with
  | nil =>
    intro _
    simp
  | cons hd tl ih =>
    intro hbook
    have hd1 : 0 ≤ hd.2.shares := (hbook hd (by simp)).1
    have hd2 : hd.2.stop_loss ≤ hd.2.entry_price := (hbook hd (by simp)).2
    have ih' := ih (fun tp htp => hbook tp (List.mem_cons_of_mem hd htp))
    have hspread : 0 ≤ hd.2.entry_price - hd.2.stop_loss := by linarith
    rcases hsc : RiskManager.scalePosition acc f hd.2 with _ | q
    · simp only [List.filterMap_cons, hsc, Option.map_none', List.map_cons, List.sum_cons]
      have hterm : 0 ≤ f * (hd.2.shares * (hd.2.entry_price - hd.2.stop_loss)) :=
        mul_nonneg hf (mul_nonneg hd1 hspread)
      rw [mul_add]
      linarith
    · have hq : q.risk_amount =
          (pyInt (hd.2.shares * f) : ℚ) * (hd.2.entry_price - hd.2.stop_loss) := by
        simp only [RiskManager.scalePosition] at hsc
        split_ifs at hsc with hpos
        have := Option.some.inj hsc
        rw [← this]
      simp only [List.filterMap_cons, hsc, Option.map_some', List.map_cons, List.sum_cons]
      have h1 : (pyInt (hd.2.shares * f) : ℚ) ≤ hd.2.shares * f :=
        pyInt_le (mul_nonneg hd1 hf)
      have hkey : q.risk_amount ≤
          f * (hd.2.shares * (hd.2.entry_price - hd.2.stop_loss)) := by
        rw [hq]
        nlinarith
      rw [mul_add]
      linarith

/-- C1 counterexample: the claim quantifies over books whose positions only
satisfy `shares ≥ 0` and `entry_price ≥ stop_loss`. `inconsistentRM` is such a
book (stored `risk_amount = 1/2`, but `shares × (entry − stop) = 10`), yet
with `cap = 1/1000 ≥ 0` and `account_size = 100 > 0` the call raises
`total_risk_pct` from `1/200` to `1/50`, which also exceeds the cap. -/
theorem adjust_position_sizes_cex :
    (∀ tp ∈ inconsistentRM.positions,
        0 ≤ tp.2.shares ∧ tp.2.stop_loss ≤ tp.2.entry_price) ∧
    (0 : ℚ) ≤ 1 / 1000 ∧ 0 < inconsistentRM.account_size ∧
    inconsistentRM.get_portfolio_risk.total_risk_pct = 1 / 200 ∧
    (inconsistentRM.adjust_position_sizes
        (1 / 1000)).get_portfolio_risk.total_risk_pct = 1 / 50 ∧
    ¬ ((inconsistentRM.adjust_position_sizes
          (1 / 1000)).get_portfolio_risk.total_risk_pct ≤
        inconsistentRM.get_portfolio_risk.total_risk_pct) ∧
    ¬ ((inconsistentRM.adjust_position_sizes
          (1 / 1000)).get_portfolio_risk.total_risk_pct ≤ 1 / 1000) := by
  have h1 : inconsistentRM.get_portfolio_risk.total_risk_pct = 1 / 200 := by
    norm_num [inconsistentRM, RiskManager.get_portfolio_risk]
  have h2 : (inconsistentRM.adjust_position_sizes
      (1 / 1000)).get_portfolio_risk.total_risk_pct = 1 / 50 := by
    norm_num [RiskManager.adjust_position_sizes, RiskManager.get_portfolio_risk,
      RiskManager.scalePosition, pyInt, inconsistentRM, List.filterMap_cons]
  refine ⟨?_, by norm_num, by norm_num [inconsistentRM], h1, h2, ?_, ?_⟩
  · intro tp htp
    simp only [inconsistentRM, List.mem_singleton] at htp
    subst htp
    norm_num
  · rw [h1, h2]
    norm_num
  · rw [h2]
    norm_num

/-- C1 amended: the guarantee holds for books whose positions, in addition to
`shares ≥ 0` and `entry_price ≥ stop_loss`, store a consistent
`risk_amount = shares × (entry_price − stop_loss)` (as every position built by
`calculate_position_size` does): `adjust_position_sizes(cap)` then never
increases `total_risk_pct`; it is a no-op when the current `total_risk_pct ≤
cap`; otherwise the new book consists exactly of the rescaled positions
(`floor(shares × cap/total_risk_pct)` shares, zero-share entries dropped,
dollar/risk recomputed) and the resulting `total_risk_pct ≤ cap`. -/
theorem adjust_position_sizes_spec (rm : RiskManager) (cap : ℚ)
    (hbook : ∀ tp ∈ rm.positions,
      0 ≤ tp.2.shares ∧ tp.2.stop_loss ≤ tp.2.entry_price ∧
        tp.2.risk_amount = tp.2.shares * (tp.2.entry_price - tp.2.stop_loss))
    (hcap : 0 ≤ cap) (hacc : 0 < rm.account_size) :
    (rm.adjust_position_sizes cap).get_portfolio_risk.total_risk_pct ≤
      rm.get_portfolio_risk.total_risk_pct ∧
    (rm.get_portfolio_risk.total_risk_pct ≤ cap → rm.adjust_position_sizes cap = rm) ∧
    (cap < rm.get_portfolio_risk.total_risk_pct →
      (∀ tp', tp' ∈ (rm.adjust_position_sizes cap).positions ↔
        ∃ tp ∈ rm.positions, tp'.1 = tp.1 ∧
          RiskManager.scalePosition rm.account_size
            (cap / rm.get_portfolio_risk.total_risk_pct) tp.2 = some tp'.2) ∧
      (rm.adjust_position_sizes cap).get_portfolio_risk.total_risk_pct ≤ cap) := by
  have hmap : rm.positions.map (fun tp => tp.2.risk_amount) =
      rm.positions.map (fun tp => tp.2.shares * (tp.2.entry_price - tp.2.stop_loss)) :=
    List.map_congr_left (fun tp htp => (hbook tp htp).2.2)
  have htrp : rm.get_portfolio_risk.total_risk_pct =
      (rm.positions.map (fun tp => tp.2.risk_amount)).sum / rm.account_size := by
    simp only [RiskManager.get_portfolio_risk, if_pos hacc]
  by_cases hle : rm.get_portfolio_risk.total_risk_pct ≤ cap
  · have hnoop : rm.adjust_position_sizes cap = rm := by
      simp only [RiskManager.adjust_position_sizes, if_pos hle]
    rw [hnoop]
    exact ⟨le_refl _, fun _ => rfl, fun hlt => absurd hlt (not_lt.mpr hle)⟩
  · have hlt : cap < rm.get_portfolio_risk.total_risk_pct := not_le.mp hle
    have hadj : rm.adjust_position_sizes cap =
        { rm with positions := rm.positions.filterMap (fun tp =>
            (RiskManager.scalePosition rm.account_size
              (cap / rm.get_portfolio_risk.total_risk_pct) tp.2).map
              (fun q => (tp.1, q))) } := by
      simp only [RiskManager.adjust_position_sizes, if_neg hle]
    have htrppos : 0 < rm.get_portfolio_risk.total_risk_pct := lt_of_le_of_lt hcap hlt
    have hTpos : 0 < (rm.positions.map (fun tp => tp.2.risk_amount)).sum := by
      rw [htrp] at htrppos
      have h := mul_pos htrppos hacc
      rwa [div_mul_cancel₀ _ (ne_of_gt hacc)] at h
    have hf : 0 ≤ cap / rm.get_portfolio_risk.total_risk_pct :=
      div_nonneg hcap (le_of_lt htrppos)
    have hsum := scaled_book_risk_le rm.account_size
      (cap / rm.get_portfolio_risk.total_risk_pct) hf rm.positions
      (fun tp htp => ⟨(hbook tp htp).1, (hbook tp htp).2.1⟩)
    rw [← hmap] at hsum
    have htrp' : (rm.adjust_position_sizes cap).get_portfolio_risk.total_risk_pct =
        ((rm.positions.filterMap (fun tp =>
            (RiskManager.scalePosition rm.account_size
              (cap / rm.get_portfolio_risk.total_risk_pct) tp.2).map
              (fun q => (tp.1, q)))).map (fun tp => tp.2.risk_amount)).sum /
          rm.account_size := by
      rw [hadj]
      simp only [RiskManager.get_portfolio_risk, if_pos hacc]
    have hcalc : cap / rm.get_portfolio_risk.total_risk_pct *
        (rm.positions.map (fun tp => tp.2.risk_amount)).sum / rm.account_size = cap := by
      rw [htrp]
      field_simp
    have hle' : (rm.adjust_position_sizes cap).get_portfolio_risk.total_risk_pct ≤ cap := by
      rw [htrp']
      calc ((rm.positions.filterMap (fun tp =>
              (RiskManager.scalePosition rm.account_size
                (cap / rm.get_portfolio_risk.total_risk_pct) tp.2).map
                (fun q => (tp.1, q)))).map (fun tp => tp.2.risk_amount)).sum /
            rm.account_size
          ≤ cap / rm.get_portfolio_risk.total_risk_pct *
              (rm.positions.map (fun tp => tp.2.risk_amount)).sum / rm.account_size := by
            gcongr
        _ = cap := hcalc
    refine ⟨le_trans hle' (le_of_lt hlt), fun h => absurd h hle, fun _ => ⟨?_, hle'⟩⟩
    intro tp'
    rw [hadj]
    simp only [List.mem_filterMap, Option.map_eq_some']
    constructor
    · rintro ⟨tp, htp, q, hq, heq⟩
      subst heq
      exact ⟨tp, htp, rfl, hq⟩
    · rintro ⟨tp, htp, h1, h2⟩
      exact ⟨tp, htp, tp'.2, h2, by rw [← h1]⟩

/-- Witness for the amended C1: the consistent over-risk book is scaled from
10% portfolio risk down to at most the 5% cap. -/
theorem adjust_position_sizes_spec_witness :
    (0 : ℚ) ≤ 1 / 20 ∧ 0 < overRiskRM.account_size ∧
      ((overRiskRM.adjust_position_sizes (1 / 20)).get_portfolio_risk.total_risk_pct ≤
        overRiskRM.get_portfolio_risk.total_risk_pct) :=
  ⟨by norm_num, by norm_num [overRiskRM],
    (adjust_position_sizes_spec overRiskRM (1 / 20)
      (by
        intro tp htp
        simp only [overRiskRM, List.mem_singleton] at htp
        subst htp
        norm_num)
      (by norm_num) (by norm_num [overRiskRM])).1⟩

/-! Claim C3: cache failures in `get_f_score`. -/

/-- C3 counterexample: a read failure of a fresh cache entry does NOT yield
the same result as a cache miss. On a cache miss (stale or absent store) the
freshly computed table is returned; on a fresh-cache read failure the call
returns the empty table — the scores are not recomputed. -/
theorem get_f_score_read_failure_cex :
    get_f_score true (.error "disk error") exampleScoreTable (.ok ()) = .ok [] ∧
    get_f_score false (.error "disk error") exampleScoreTable (.ok ()) =
      .ok exampleScoreTable ∧
    get_f_score true (.error "disk error") exampleScoreTable (.ok ()) ≠
      get_f_score false (.error "disk error") exampleScoreTable (.ok ()) := by
  refine ⟨rfl, rfl, ?_⟩
  simp [get_f_score, load_from_cache, exampleScoreTable]

/-- C3 amended: persistent-store failures never propagate out of
`get_f_score`: the call always returns a table; after a write failure the
freshly computed table is still returned; but a read failure of a fresh cache
entry yields the EMPTY score table (the scores are not recomputed), not the
cache-miss result. -/
theorem get_f_score_cache_best_effort (cacheFresh : Bool)
    (readResult : Except String (List ScoreRow)) (computed : List ScoreRow)
    (writeResult : Except String Unit) :
    (∃ t, get_f_score cacheFresh readResult computed writeResult = .ok t) ∧
    (cacheFresh = false →
      get_f_score cacheFresh readResult computed writeResult = .ok computed) ∧
    (∀ e, cacheFresh = true → readResult = .error e →
      get_f_score cacheFresh readResult computed writeResult = .ok []) := by
  refine ⟨?_, fun h => ?_, fun e hf hr => ?_⟩
  · cases cacheFresh
    · exact ⟨computed, rfl⟩
    · exact ⟨load_from_cache readResult, rfl⟩
  · subst h
    rfl
  · subst hf
    subst hr
    rfl

/-- Witness for the amended C3: fresh cache, failed read, non-fatal outcome. -/
theorem get_f_score_cache_best_effort_witness :
    (∃ t, get_f_score true (.error "io") exampleScoreTable (.ok ()) = .ok t) ∧
      get_f_score true (.error "io") exampleScoreTable (.ok ()) = .ok [] :=
  ⟨(get_f_score_cache_best_effort true (.error "io") exampleScoreTable (.ok ())).1,
    (get_f_score_cache_best_effort true (.error "io") exampleScoreTable
      (.ok ())).2.2 "io" rfl rfl⟩

/-! Claims C6 and C7: indexing lemmas for the signal-builder columns. -/

theorem rollingMean_length (w : ℕ) (xs : List ℚ) :
    (rollingMean w xs).length = xs.length := by
  simp [rollingMean]

theorem rollingMean_getElem? (w : ℕ) (xs : List ℚ) (t : ℕ) (h : t < xs.length) :
    (rollingMean w xs)[t]? =
      some (if w ≤ t + 1 then
        some ((((xs.take (t + 1)).drop (t + 1 - w)).sum) / (w : ℚ)) else none) := by
  simp [rollingMean, List.getElem?_range h]

/-- Indexing a `zip` of two lists. -/
theorem getElem?_zip_pair {α β : Type} (as : List α) (bs : List β) (i : ℕ) :
    (as.zip bs)[i]? = match as[i]?, bs[i]? with
      | some a, some b => some (a, b)
      | _, _ => none :=
  List.getElem?_zipWith

theorem lastCarried_cons (carry x : Option ℚ) (ys : List (Option ℚ)) :
    lastCarried carry (x :: ys) =
      lastCarried (match x with | some v => some v | none => carry) ys := by
  cases x with
  | some v =>
    unfold lastCarried
    simp only [List.filterMap_cons, id_eq, List.getLast?_cons]
    cases hys : (ys.filterMap id).getLast? with
    | some w => simp [hys]
    | none => simp [hys]
  | none =>
    unfold lastCarried
    simp

theorem ffillFrom_length (carry : Option ℚ) (xs : List (Option ℚ)) :
    (ffillFrom carry xs).length = xs.length := by
  induction xs generalizing carry with
  | nil => rfl
  | cons x ys ih => simp [ffillFrom, ih]

/-- The value of a forward fill at index `t` is the last non-null value among
the first `t + 1` entries (or the initial carry when there is none). -/
theorem ffillFrom_getElem? (xs : List (Option ℚ)) :
    ∀ (carry : Option ℚ) (t : ℕ), t < xs.length →
      (ffillFrom carry xs)[t]? = some (lastCarried carry (xs.take (t + 1))) := by
  induction xs with
  | nil =>
    intro carry t h
    simp at h
  | cons x ys ih =>
    intro carry t h
    cases t with
    | zero =>
      cases x <;> simp [ffillFrom, lastCarried]
    | succ t' =>
      have h' : t' < ys.length := by simpa using h
      cases x with
      | some v =>
        show (some v :: ffillFrom (some v) ys)[t' + 1]? = _
        rw [List.getElem?_cons_succ, ih _ t' h', List.take_succ_cons, lastCarried_cons]
      | none =>
        show (carry :: ffillFrom carry ys)[t' + 1]? = _
        rw [List.getElem?_cons_succ, ih _ t' h', List.take_succ_cons, lastCarried_cons]

/-! Projection lemmas unfolding the columns of `build_factor_df`. -/

theorem build_factor_df_sma (f : OhlcFrame) (thr : ℚ) :
    (build_factor_df f thr).sma_200 = rollingMean 200 f.close := rfl

theorem build_factor_df_atr (f : OhlcFrame) (thr : ℚ) :
    (build_factor_df f thr).atr = rollingMean 14 (trueRange f.high f.low f.close) := rfl

theorem build_factor_df_entry (f : OhlcFrame) (thr : ℚ) :
    (build_factor_df f thr).entry =
      List.zipWith (fun s p => decide (thr ≤ s) && nanGt p.1 p.2)
        f.score (f.close.zip (rollingMean 200 f.close)) := rfl

theorem build_factor_df_exit_sma (f : OhlcFrame) (thr : ℚ) :
    (build_factor_df f thr).exit_sma =
      List.zipWith (fun c m => nanLt c m) f.close (rollingMean 200 f.close) := rfl

theorem build_factor_df_entry_price (f : OhlcFrame) (thr : ℚ) :
    (build_factor_df f thr).entry_price =
      ffill (List.zipWith (fun e c => if e then some c else none)
        (build_factor_df f thr).entry f.close) := rfl

theorem build_factor_df_atr_stop (f : OhlcFrame) (thr : ℚ) :
    (build_factor_df f thr).atr_stop =
      List.zipWith (Option.map₂ (fun e a => e - 2 * a))
        (build_factor_df f thr).entry_price (build_factor_df f thr).atr := rfl

theorem build_factor_df_exit_atr (f : OhlcFrame) (thr : ℚ) :
    (build_factor_df f thr).exit_atr =
      List.zipWith (fun c st => nanLt c st) f.close (build_factor_df f thr).atr_stop := rfl

theorem build_factor_df_exit (f : OhlcFrame) (thr : ℚ) :
    (build_factor_df f thr).exit =
      List.zipWith (fun a b => a || b)
        (build_factor_df f thr).exit_sma (build_factor_df f thr).exit_atr := rfl

/-- C6: `entry[t]` is false at every bar with fewer than 200 bars of close
history up to and including `t` (there the 200-bar trend baseline is
undefined), and `entry[t] = true` implies the trend baseline `sma_200[t]` is
defined at `t` (at least 200 bars of history). -/
theorem entry_requires_trend_baseline (f : OhlcFrame) (thr : ℚ) (t : ℕ)
    (hlen : f.score.length = f.close.length) :
    (t + 1 < 200 → (build_factor_df f thr).entry.getD t false = false) ∧
    ((build_factor_df f thr).entry.getD t false = true →
      200 ≤ t + 1 ∧ ((build_factor_df f thr).sma_200.getD t none).isSome = true) := by
  by_cases ht : t < f.close.length
  · have hts : t < f.score.length := by rw [hlen]; exact ht
    have hsma := rollingMean_getElem? 200 f.close t ht
    have hc : f.close[t]? = some f.close[t] := List.getElem?_eq_getElem ht
    have hs : f.score[t]? = some f.score[t] := List.getElem?_eq_getElem hts
    by_cases h200 : 200 ≤ t + 1
    · rw [if_pos h200] at hsma
      refine ⟨fun h => absurd h (by omega), fun _ => ⟨h200, ?_⟩⟩
      rw [build_factor_df_sma, List.getD_eq_getElem?_getD, hsma]
      rfl
    · rw [if_neg h200] at hsma
      have hzip : (f.close.zip (rollingMean 200 f.close))[t]? =
          some (f.close[t], none) := by
        rw [getElem?_zip_pair, hc, hsma]
      have hentry : (build_factor_df f thr).entry[t]? = some false := by
        rw [build_factor_df_entry, List.getElem?_zipWith, hs, hzip]
        simp [nanGt]
      have hfalse : (build_factor_df f thr).entry.getD t false = false := by
        rw [List.getD_eq_getElem?_getD, hentry]
        rfl
      exact ⟨fun _ => hfalse, fun h => absurd (hfalse ▸ h) (by simp)⟩
  · have hout : (build_factor_df f thr).entry.length ≤ t := by
      rw [build_factor_df_entry, List.length_zipWith, List.length_zip, rollingMean_length,
        hlen]
      omega
    have hfalse : (build_factor_df f thr).entry.getD t false = false := by
      rw [List.getD_eq_getElem?_getD, List.getElem?_eq_none hout]
      rfl
    exact ⟨fun _ => hfalse, fun h => absurd (hfalse ▸ h) (by simp)⟩

theorem lastCarried_none (ys : List (Option ℚ)) :
    lastCarried none ys = (ys.filterMap id).getLast? := by
  unfold lastCarried
  cases h : (ys.filterMap id).getLast? <;> simp [h]

theorem lastCarried_concat (A : List (Option ℚ)) (x : Option ℚ) :
    lastCarried none (A ++ [x]) =
      match x with
      | some v => some v
      | none => lastCarried none A := by
  rw [lastCarried_none, lastCarried_none, List.filterMap_append]
  cases x with
  | some v => simp [List.getLast?_concat]
  | none => simp

/-- The forward-filled entry-price column, truncated to the first `t` bars,
carries exactly the close of the most recent entry bar among them. -/
theorem ffill_raw_characterization (es : List Bool) (cs : List ℚ) :
    ∀ t, t ≤ es.length → t ≤ cs.length →
      lastCarried none
          ((List.zipWith (fun e c => if e then some c else none) es cs).take t) =
        ((List.range t).filterMap (fun s =>
          if es.getD s false then some (cs.getD s 0) else none)).getLast? := by
  intro t
  induction t with
  | zero =>
    intro _ _
    rfl
  | succ t ih =>
    intro h1 h2
    have ih' := ih (Nat.le_of_succ_le h1) (Nat.le_of_succ_le h2)
    have ht1 : t < es.length := h1
    have ht2 : t < cs.length := h2
    have hraw : (List.zipWith (fun e c => if e then some c else none) es cs)[t]? =
        some (if es.getD t false then some (cs.getD t 0) else none) := by
      rw [List.getElem?_zipWith, List.getElem?_eq_getElem ht1, List.getElem?_eq_getElem ht2]
      simp [List.getD_eq_getElem?_getD, List.getElem?_eq_getElem, ht1, ht2]
    rw [List.take_succ, hraw, Option.toList_some, lastCarried_concat,
      List.range_succ, List.filterMap_append]
    have hft : List.filterMap (fun s =>
        if es.getD s false then some (cs.getD s 0) else none) [t] =
        if es.getD t false then [cs.getD t 0] else [] := by
      by_cases he : es.getD t false
      · rw [if_pos he]
        simp only [List.filterMap_cons, List.filterMap_nil, if_pos he]
      · rw [if_neg he]
        simp only [List.filterMap_cons, List.filterMap_nil, if_neg he]
    rw [hft]
    by_cases he : es.getD t false
    · rw [if_pos he, if_pos he, List.getLast?_concat]
    · rw [if_neg he, if_neg he, List.append_nil]
      exact ih'

theorem trueRange_length (high low close : List ℚ) :
    (trueRange high low close).length = high.length := by
  simp [trueRange]

theorem ffill_eq_ffillFrom (xs : List (Option ℚ)) : ffill xs = ffillFrom none xs := rfl

/-- C7: at every in-range bar `t` of a well-formed frame, `entry_price[t]` is
`close[t]` when `entry[t]` is true and otherwise the close carried forward
from the most recent prior entry bar (undefined before the first entry);
`atr_stop[t] = entry_price[t] − 2·atr[t]` with NaN propagation; `exit[t]` is
`(close[t] < trend_baseline[t]) OR (close[t] < atr_stop[t])` with NaN
comparisons false; and the volatility exit is false while no entry has
occurred at or before `t`. -/
theorem build_factor_df_signal_spec (f : OhlcFrame) (thr : ℚ) (t : ℕ)
    (hs : f.score.length = f.close.length)
    (hh : f.high.length = f.close.length)
    (ht : t < f.close.length) :
    (build_factor_df f thr).entry_price[t]? =
      some (if (build_factor_df f thr).entry.getD t false then some (f.close.getD t 0)
        else lastEntryPriceBefore (build_factor_df f thr).entry f.close t) ∧
    (build_factor_df f thr).atr_stop[t]? =
      some (Option.map₂ (fun e a => e - 2 * a)
        ((build_factor_df f thr).entry_price.getD t none)
        ((build_factor_df f thr).atr.getD t none)) ∧
    (build_factor_df f thr).exit.getD t false =
      (nanLt (f.close.getD t 0) ((build_factor_df f thr).sma_200.getD t none) ||
        nanLt (f.close.getD t 0) ((build_factor_df f thr).atr_stop.getD t none)) ∧
    ((∀ s, s ≤ t → (build_factor_df f thr).entry.getD s false = false) →
      (build_factor_df f thr).exit_atr.getD t false = false) := by
  have hc : f.close[t]? = some f.close[t] := List.getElem?_eq_getElem ht
  have hcD : f.close.getD t 0 = f.close[t] := by
    rw [List.getD_eq_getElem?_getD, hc]
    rfl
  have hElen : (build_factor_df f thr).entry.length = f.close.length := by
    rw [build_factor_df_entry, List.length_zipWith, List.length_zip, rollingMean_length, hs]
    omega
  have hEt : t < (build_factor_df f thr).entry.length := by
    rw [hElen]
    exact ht
  obtain ⟨m, hm⟩ : ∃ m, (rollingMean 200 f.close)[t]? = some m :=
    ⟨_, rollingMean_getElem? 200 f.close t ht⟩
  obtain ⟨av, hav⟩ : ∃ av, (rollingMean 14 (trueRange f.high f.low f.close))[t]? = some av :=
    ⟨_, rollingMean_getElem? 14 _ t (by rw [trueRange_length, hh]; exact ht)⟩
  have hatr : (build_factor_df f thr).atr[t]? = some av := by
    rw [build_factor_df_atr]
    exact hav
  -- part (a): the forward-filled entry price
  have ha : (build_factor_df f thr).entry_price[t]? =
      some (if (build_factor_df f thr).entry.getD t false then some (f.close.getD t 0)
        else lastEntryPriceBefore (build_factor_df f thr).entry f.close t) := by
    rw [build_factor_df_entry_price, ffill_eq_ffillFrom]
    rw [ffillFrom_getElem? _ none t
      (by rw [List.length_zipWith, hElen]; simp; exact ht)]
    rw [ffill_raw_characterization _ f.close (t + 1) (by omega) (by omega)]
    rw [List.range_succ, List.filterMap_append]
    by_cases he : (build_factor_df f thr).entry.getD t false
    · rw [if_pos he]
      have hft : List.filterMap (fun s =>
          if (build_factor_df f thr).entry.getD s false then some (f.close.getD s 0)
          else none) [t] = [f.close.getD t 0] := by
        simp only [List.filterMap_cons, List.filterMap_nil, if_pos he]
      rw [hft, List.getLast?_concat]
    · rw [if_neg he]
      have hft : List.filterMap (fun s =>
          if (build_factor_df f thr).entry.getD s false then some (f.close.getD s 0)
          else none) [t] = [] := by
        simp only [List.filterMap_cons, List.filterMap_nil, if_neg he]
      rw [hft, List.append_nil]
      rfl
  obtain ⟨epv, hep⟩ : ∃ v, (build_factor_df f thr).entry_price[t]? = some v := ⟨_, ha⟩
  have hepval : epv =
      if (build_factor_df f thr).entry.getD t false then some (f.close.getD t 0)
      else lastEntryPriceBefore (build_factor_df f thr).entry f.close t := by
    rw [hep] at ha
    exact Option.some.inj ha
  have hepD : (build_factor_df f thr).entry_price.getD t none = epv := by
    rw [List.getD_eq_getElem?_getD, hep]
    rfl
  have havD : (build_factor_df f thr).atr.getD t none = av := by
    rw [List.getD_eq_getElem?_getD, hatr]
    rfl
  have hmD : (build_factor_df f thr).sma_200.getD t none = m := by
    rw [List.getD_eq_getElem?_getD, build_factor_df_sma, hm]
    rfl
  -- part (b): the ATR stop column
  have hstop : (build_factor_df f thr).atr_stop[t]? =
      some (Option.map₂ (fun e a => e - 2 * a) epv av) := by
    rw [build_factor_df_atr_stop, List.getElem?_zipWith, hep, hatr]
  have hstopD : (build_factor_df f thr).atr_stop.getD t none =
      Option.map₂ (fun e a => e - 2 * a) epv av := by
    rw [List.getD_eq_getElem?_getD, hstop]
    rfl
  have hb : (build_factor_df f thr).atr_stop[t]? =
      some (Option.map₂ (fun e a => e - 2 * a)
        ((build_factor_df f thr).entry_price.getD t none)
        ((build_factor_df f thr).atr.getD t none)) := by
    rw [hstop, hepD, havD]
  -- part (c): the combined exit rule
  have h1 : (build_factor_df f thr).exit_sma[t]? = some (nanLt f.close[t] m) := by
    rw [build_factor_df_exit_sma, List.getElem?_zipWith, hc, hm]
  have h2 : (build_factor_df f thr).exit_atr[t]? =
      some (nanLt f.close[t] (Option.map₂ (fun e a => e - 2 * a) epv av)) := by
    rw [build_factor_df_exit_atr, List.getElem?_zipWith, hc, hstop]
  have hcX : (build_factor_df f thr).exit.getD t false =
      (nanLt (f.close.getD t 0) ((build_factor_df f thr).sma_200.getD t none) ||
        nanLt (f.close.getD t 0) ((build_factor_df f thr).atr_stop.getD t none)) := by
    rw [build_factor_df_exit, List.getD_eq_getElem?_getD, List.getElem?_zipWith, h1, h2,
      hcD, hmD, hstopD]
    rfl
  -- part (d): no entry so far means no volatility exit
  refine ⟨ha, hb, hcX, fun hne => ?_⟩
  have hlep : lastEntryPriceBefore (build_factor_df f thr).entry f.close t = none := by
    unfold lastEntryPriceBefore
    have hnil : List.filterMap (fun s =>
        if (build_factor_df f thr).entry.getD s false then some (f.close.getD s 0)
        else none) (List.range t) = [] := by
      rw [List.filterMap_eq_nil]
      intro s hsr
      have hst : s ≤ t := by
        have := List.mem_range.mp hsr
        omega
      rw [hne s hst]
      simp
    rw [hnil]
    rfl
  have hepnone : epv = none := by
    rw [hepval, if_neg, hlep]
    rw [hne t (le_refl t)]
    simp
  have hstopnone : (build_factor_df f thr).atr_stop[t]? = some none := by
    rw [hstop, hepnone]
    rfl
  rw [List.getD_eq_getElem?_getD, h2, hepnone]
  rfl

/-- Witness for C6 on the one-bar frame (bar 0 has fewer than 200 bars). -/
theorem entry_requires_trend_baseline_witness :
    exampleFrame.score.length = exampleFrame.close.length ∧
      ((0 + 1 < 200 → (build_factor_df exampleFrame 7).entry.getD 0 false = false) ∧
        ((build_factor_df exampleFrame 7).entry.getD 0 false = true →
          200 ≤ 0 + 1 ∧
            (((build_factor_df exampleFrame 7).sma_200.getD 0 none).isSome = true))) :=
  ⟨rfl, entry_requires_trend_baseline exampleFrame 7 0 rfl⟩

/-- Witness for C7 on the one-bar frame at bar 0. -/
theorem build_factor_df_signal_spec_witness :
    (exampleFrame.score.length = exampleFrame.close.length ∧
      exampleFrame.high.length = exampleFrame.close.length ∧
      0 < exampleFrame.close.length) ∧
      (build_factor_df exampleFrame 7).exit.getD 0 false =
        (nanLt (exampleFrame.close.getD 0 0)
            ((build_factor_df exampleFrame 7).sma_200.getD 0 none) ||
          nanLt (exampleFrame.close.getD 0 0)
            ((build_factor_df exampleFrame 7).atr_stop.getD 0 none)) :=
  ⟨⟨rfl, rfl, by norm_num [exampleFrame]⟩,
    (build_factor_df_signal_spec exampleFrame 7 0 rfl rfl
      (by norm_num [exampleFrame])).2.2.1⟩
